import Mathlib

/-!
Verification of the scoring engine in `analysis.py`.

The program joins three tables (voter demographics, migration, system load)
on the constituency key, computes national baselines, and emits three
composite per-constituency scores.  All values flowing through the pandas
pipeline are IEEE floats; the arithmetic that the claims are about is exact
decimal arithmetic, so we model a float as an exact rational extended with
the two infinities and NaN.  (Signed zero is collapsed to `0`: the program
only ever tests `== 0`, `pd.isna`, and divides, none of which distinguish
`-0.0` from `0.0` on the values that arise.)

`none`/NaN both encode a missing cell: pandas represents a missing numeric
cell as NaN, and `None` entering `safe_div` is likewise mapped to NaN.
-/

/-- A pandas/NumPy float value: a finite rational, `+inf`, `-inf`, or NaN. -/
inductive PFloat where
  | num (q : ℚ)
  | inf
  | ninf
  | nan
deriving DecidableEq

namespace PFloat

/-- `pd.isna` on a float: true exactly on NaN. -/
def isna : PFloat → Bool
  | nan => true
  | _ => false

/-- IEEE addition (exact, no rounding): NaN absorbs, `inf + (-inf)` is NaN. -/
def padd : PFloat → PFloat → PFloat
  | nan, _ => nan
  | _, nan => nan
  | num a, num b => num (a + b)
  | num _, inf => inf
  | num _, ninf => ninf
  | inf, num _ => inf
  | ninf, num _ => ninf
  | inf, inf => inf
  | ninf, ninf => ninf
  | inf, ninf => nan
  | ninf, inf => nan

/-- IEEE negation. -/
def pneg : PFloat → PFloat
  | num a => num (-a)
  | inf => ninf
  | ninf => inf
  | nan => nan

/-- IEEE subtraction. -/
def psub (a b : PFloat) : PFloat := padd a (pneg b)

/-- IEEE multiplication: `0 * inf` is NaN. -/
def pmul : PFloat → PFloat → PFloat
  | nan, _ => nan
  | _, nan => nan
  | num a, num b => num (a * b)
  | num a, inf => if 0 < a then inf else if a < 0 then ninf else nan
  | num a, ninf => if 0 < a then ninf else if a < 0 then inf else nan
  | inf, num b => if 0 < b then inf else if b < 0 then ninf else nan
  | ninf, num b => if 0 < b then ninf else if b < 0 then inf else nan
  | inf, inf => inf
  | inf, ninf => ninf
  | ninf, inf => ninf
  | ninf, ninf => inf

/-- IEEE division (zeros unsigned): `x/0` is `±inf` for `x ≠ 0`, `0/0` is NaN,
`x/±inf` is `0` for finite `x`, `±inf/±inf` is NaN. -/
def pdiv : PFloat → PFloat → PFloat
  | nan, _ => nan
  | _, nan => nan
  | num a, num b =>
      if b = 0 then (if 0 < a then inf else if a < 0 then ninf else nan)
      else num (a / b)
  | num _, inf => num 0
  | num _, ninf => num 0
  | inf, num b => if 0 ≤ b then inf else ninf
  | ninf, num b => if 0 ≤ b then ninf else inf
  | inf, inf => nan
  | inf, ninf => nan
  | ninf, inf => nan
  | ninf, ninf => nan

/-- IEEE absolute value. -/
def pabs : PFloat → PFloat
  | num a => num |a|
  | inf => inf
  | ninf => inf
  | nan => nan

end PFloat

/-- A numeric cell of an input table (a number, or a missing marker) viewed
as the float that pandas stores for it. -/
def toP : Option ℚ → PFloat
  | some q => PFloat.num q
  | none => PFloat.nan

/-- Python `sum(...)`: left fold of addition starting from `0`. -/
def psum (l : List PFloat) : PFloat := l.foldl PFloat.padd (PFloat.num 0)

/-- `pandas.Series.mean` / `np.nanmean`: NaN entries are skipped (infinities
are not); the mean of an empty/all-NaN collection is NaN. -/
def pmean (l : List PFloat) : PFloat :=
  let vs := l.filter (fun x => !x.isna)
  if vs.isEmpty then PFloat.nan
  else PFloat.pdiv (psum vs) (PFloat.num (vs.length : ℚ))

/-- `pandas.Series.max` on a column of number-or-missing cells: NaN entries
are skipped; NaN if the column has no number. -/
def colMax (l : List (Option ℚ)) : PFloat :=
  match l.filterMap id with
  | [] => PFloat.nan
  | q :: qs => PFloat.num (qs.foldl max q)

/-- `round(q)` at Python's round-half-to-even, on an exact rational. -/
def roundHalfEven (q : ℚ) : ℤ :=
  let n := ⌊q⌋
  if q - n < 1 / 2 then n
  else if (1 : ℚ) / 2 < q - n then n + 1
  else if n % 2 = 0 then n else n + 1

/-- Python `round(x, 4)` on a float: rounds a finite value to 4 decimal
places, and returns infinities and NaN unchanged. -/
def round4 : PFloat → PFloat
  | PFloat.num q => PFloat.num ((roundHalfEven (q * 10000) : ℚ) / 10000)
  | x => x

/-- `safe_div(a, b)` from `analysis.py`:
`a / b if b not in (0, None, np.nan) else np.nan`.
A `b` equal to `0`, a missing `b` (pandas NaN / `None`), give NaN; any other
`b` performs the float division.  (A NaN `b` that is not the `np.nan`
singleton object slips past the membership test in the source, but then
`a / NaN` is NaN as well, so the result is NaN for every missing `b`.) -/
def safe_div (a b : PFloat) : PFloat :=
  if b = PFloat.num 0 ∨ b.isna then PFloat.nan else PFloat.pdiv a b

/-- `deviation_score(value, reference)` from `analysis.py`: NaN when either
input is NaN or the reference is zero, else `1 - |value - reference| / reference`. -/
def deviation_score (value reference : PFloat) : PFloat :=
  if value.isna ∨ reference.isna ∨ reference = PFloat.num 0 then PFloat.nan
  else PFloat.psub (PFloat.num 1)
    (PFloat.pdiv (PFloat.pabs (PFloat.psub value reference)) reference)

/-- `normalize_partial(scores, weights)` from `analysis.py`: keep the
`(score, weight)` pairs whose score is not NaN; NaN if none survives, else
`sum(s * w) / sum(w)` over the survivors.  The weights are plain decimal
constants, modelled exactly; the division follows NumPy float semantics
(the scores in the program are `np.float64`, so a zero weight total yields
an IEEE result, not an exception). -/
def normalize_partial (scores : List PFloat) (weights : List ℚ) : PFloat :=
  let valid := (scores.zip weights).filter (fun p => !p.1.isna)
  if valid.isEmpty then PFloat.nan
  else PFloat.pdiv (psum (valid.map (fun p => PFloat.pmul p.1 (PFloat.num p.2))))
    (PFloat.num ((valid.map Prod.snd).sum : ℚ))

namespace PFloat

@[simp] lemma isna_num (q : ℚ) : (num q).isna = false := rfl

@[simp] lemma isna_nan : nan.isna = true := rfl

@[simp] lemma isna_inf : inf.isna = false := rfl

@[simp] lemma isna_ninf : ninf.isna = false := rfl

@[simp] lemma padd_num_num (a b : ℚ) : padd (num a) (num b) = num (a + b) := rfl

@[simp] lemma padd_nan_left (x : PFloat) : padd nan x = nan := by cases x <;> rfl

@[simp] lemma padd_nan_right (x : PFloat) : padd x nan = nan := by cases x <;> rfl

@[simp] lemma pneg_num (a : ℚ) : pneg (num a) = num (-a) := rfl

@[simp] lemma psub_num_num (a b : ℚ) : psub (num a) (num b) = num (a - b) := by
  simp [psub, sub_eq_add_neg]

@[simp] lemma psub_nan_left (x : PFloat) : psub nan x = nan := by cases x <;> rfl

@[simp] lemma psub_nan_right (x : PFloat) : psub x nan = nan := by cases x <;> rfl

@[simp] lemma pabs_num (a : ℚ) : pabs (num a) = num |a| := rfl

@[simp] lemma pabs_nan : pabs nan = nan := rfl

@[simp] lemma pmul_num_num (a b : ℚ) : pmul (num a) (num b) = num (a * b) := rfl

@[simp] lemma pmul_nan_left (x : PFloat) : pmul nan x = nan := by cases x <;> rfl

@[simp] lemma pmul_nan_right (x : PFloat) : pmul x nan = nan := by cases x <;> rfl

@[simp] lemma pdiv_nan_left (x : PFloat) : pdiv nan x = nan := by cases x <;> rfl

@[simp] lemma pdiv_nan_right (x : PFloat) : pdiv x nan = nan := by cases x <;> rfl

lemma pdiv_num_num {b : ℚ} (a : ℚ) (h : b ≠ 0) : pdiv (num a) (num b) = num (a / b) := by
  simp [pdiv, h]

lemma pdiv_num_zero_pos {a : ℚ} (h : 0 < a) : pdiv (num a) (num 0) = inf := by
  simp [pdiv, h]

lemma pdiv_num_zero_neg {a : ℚ} (h : a < 0) : pdiv (num a) (num 0) = ninf := by
  simp [pdiv, h, asymm h]

@[simp] lemma pdiv_zero_zero : pdiv (num 0) (num 0) = nan := by simp [pdiv]

@[simp] lemma num_injEq (a b : ℚ) : (num a = num b) = (a = b) := by
  simp only [num.injEq]

end PFloat

@[simp] lemma toP_some (q : ℚ) : toP (some q) = PFloat.num q := rfl

@[simp] lemma toP_none : toP none = PFloat.nan := rfl

example : safe_div (PFloat.num 6) (PFloat.num 3) = PFloat.num 2 := by
  norm_num [safe_div, PFloat.pdiv, PFloat.isna]
example : safe_div (PFloat.num 6) (PFloat.num 0) = PFloat.nan := by
  norm_num [safe_div]
example : deviation_score (PFloat.num 3) (PFloat.num 3) = PFloat.num 1 := by
  norm_num [deviation_score, PFloat.pdiv]
example : deviation_score (PFloat.num 3) (PFloat.num 1) = PFloat.num (-1) := by
  norm_num [deviation_score, PFloat.pdiv]
example : normalize_partial [PFloat.num 1, PFloat.nan] [1/4, 3/10] = PFloat.num 1 := by
  norm_num [ normalize_partial, psum, PFloat.pdiv]
example : pmean [PFloat.pdiv (PFloat.num 1) (PFloat.num 0)] = PFloat.inf := by
  norm_num [pmean, psum, PFloat.pdiv, PFloat.padd, PFloat.isna]

/-! ## Data model: the three input tables and their join

Rows carry the constituency key (`pc_id`, `state`, `constituency_name`) and
the numeric columns that `analysis.py` reads.  A numeric cell is a number or
a missing marker. -/

/-- A row of `pc_voter_demographics_synthetic.csv` (columns read by the scorer). -/
structure DemoRow where
  pc_id : String
  state : String
  constituency_name : String
  total_registered_voters : Option ℚ
  male_voters : Option ℚ
  female_voters : Option ℚ
  age_18_25 : Option ℚ
  age_26_40 : Option ℚ
  age_41_60 : Option ℚ
  age_60_plus : Option ℚ
  literacy_rate_percent : Option ℚ
  last_election_turnout_percent : Option ℚ
deriving DecidableEq

/-- A row of `pc_migration_synthetic.csv` (columns read by the scorer). -/
structure MigRow where
  pc_id : String
  state : String
  constituency_name : String
  form6_addition_requests : Option ℚ
  form6_inward_migration : Option ℚ
  form6_outward_migration : Option ℚ
  net_migration : Option ℚ
  form7_deletion_requests : Option ℚ
  form8_correction_requests : Option ℚ
deriving DecidableEq

/-- A row of `pc_system_load_synthetic.csv` (columns read by the scorer). -/
structure SysRow where
  pc_id : String
  state : String
  constituency_name : String
  total_requests : Option ℚ
  approved : Option ℚ
  rejected : Option ℚ
  pending : Option ℚ
  objections_raised : Option ℚ
  objections_resolved : Option ℚ
  objections_pending : Option ℚ
  officers_assigned : Option ℚ
  cases_per_officer : Option ℚ
deriving DecidableEq

/-- A row of the joined table `df`: the demographic row (the left anchor of
both merges) together with its migration and system-load matches, absent when
the constituency is missing from those tables. -/
structure JoinedRow where
  demo : DemoRow
  mig : Option MigRow
  sys : Option SysRow
deriving DecidableEq

namespace JoinedRow

def pc_id (r : JoinedRow) : String := r.demo.pc_id

def state (r : JoinedRow) : String := r.demo.state

def constituency_name (r : JoinedRow) : String := r.demo.constituency_name

def total_registered_voters (r : JoinedRow) : Option ℚ := r.demo.total_registered_voters

def female_voters (r : JoinedRow) : Option ℚ := r.demo.female_voters

def age_18_25 (r : JoinedRow) : Option ℚ := r.demo.age_18_25

def age_26_40 (r : JoinedRow) : Option ℚ := r.demo.age_26_40

def age_41_60 (r : JoinedRow) : Option ℚ := r.demo.age_41_60

def age_60_plus (r : JoinedRow) : Option ℚ := r.demo.age_60_plus

def literacy_rate_percent (r : JoinedRow) : Option ℚ := r.demo.literacy_rate_percent

def last_election_turnout_percent (r : JoinedRow) : Option ℚ :=
  r.demo.last_election_turnout_percent

def form6_addition_requests (r : JoinedRow) : Option ℚ :=
  r.mig.bind MigRow.form6_addition_requests

def net_migration (r : JoinedRow) : Option ℚ := r.mig.bind MigRow.net_migration

def total_requests (r : JoinedRow) : Option ℚ := r.sys.bind SysRow.total_requests

def rejected (r : JoinedRow) : Option ℚ := r.sys.bind SysRow.rejected

def objections_raised (r : JoinedRow) : Option ℚ := r.sys.bind SysRow.objections_raised

def cases_per_officer (r : JoinedRow) : Option ℚ := r.sys.bind SysRow.cases_per_officer

end JoinedRow

/-- The two left merges of `analysis.py` on the key
`["pc_id", "state", "constituency_name"]`: each demographic row is paired
with its (first) match in the migration table and in the system-load table.
This is the pandas left merge under the uniqueness precondition on `pc_id`
in each table (a unique `pc_id` makes the triple key unique, so no left row
is duplicated and the first match is the only match). -/
def mergeTables (demo : List DemoRow) (migration : List MigRow)
    (system : List SysRow) : List JoinedRow :=
  demo.map fun d =>
    { demo := d
      mig := migration.find? fun m =>
        m.pc_id == d.pc_id && m.state == d.state &&
          m.constituency_name == d.constituency_name
      sys := system.find? fun s =>
        s.pc_id == d.pc_id && s.state == d.state &&
          s.constituency_name == d.constituency_name }

/-! ## National baselines (computed once over the joined table) -/

/-- `df[col].mean()`: the mean of a column of the joined table, missing
cells ignored. -/
def colMean (tbl : List JoinedRow) (col : JoinedRow → Option ℚ) : PFloat :=
  pmean (tbl.map fun r => toP (col r))

/-- `df[["age_18_25", "age_26_40", "age_41_60", "age_60_plus"]].mean()`:
the four national average age brackets. -/
def national_age_avg (tbl : List JoinedRow) : List PFloat :=
  [colMean tbl JoinedRow.age_18_25, colMean tbl JoinedRow.age_26_40,
   colMean tbl JoinedRow.age_41_60, colMean tbl JoinedRow.age_60_plus]

/-- `df["literacy_rate_percent"].mean()`. -/
def national_literacy_avg (tbl : List JoinedRow) : PFloat :=
  colMean tbl JoinedRow.literacy_rate_percent

/-- `df["last_election_turnout_percent"].mean()`. -/
def national_turnout_avg (tbl : List JoinedRow) : PFloat :=
  colMean tbl JoinedRow.last_election_turnout_percent

/-- `df["form6_addition_requests"].mean()`. -/
def national_form6_avg (tbl : List JoinedRow) : PFloat :=
  colMean tbl JoinedRow.form6_addition_requests

/-- `(df["rejected"] / df["total_requests"]).mean()`: the elementwise pandas
float division (so a zero denominator under a nonzero numerator gives an
infinity, and `0/0` or a missing operand gives NaN), then the NaN-skipping
mean. -/
def national_rejection_rate_avg (tbl : List JoinedRow) : PFloat :=
  pmean (tbl.map fun r => PFloat.pdiv (toP r.rejected) (toP r.total_requests))

/-- `(df["objections_raised"] / df["total_requests"]).mean()`. -/
def national_objection_rate_avg (tbl : List JoinedRow) : PFloat :=
  pmean (tbl.map fun r => PFloat.pdiv (toP r.objections_raised) (toP r.total_requests))

/-- `df["cases_per_officer"].max()`. -/
def national_max_cases_per_officer (tbl : List JoinedRow) : PFloat :=
  colMax (tbl.map JoinedRow.cases_per_officer)

/-! ## Per-row scores -/

/-- Gender Balance Score:
`deviation_score(safe_div(female_voters, total_registered_voters), 0.5)`
(`IDEAL_GENDER_RATIO = 0.5`). -/
def GBS (r : JoinedRow) : PFloat :=
  deviation_score (safe_div (toP r.female_voters) (toP r.total_registered_voters))
    (PFloat.num (1 / 2))

/-- Age Distribution Score: `1 - np.nanmean(np.abs(age_vec - age_avg_vec))`,
the elementwise absolute differences of the row's four age brackets from the
national average brackets, NaN terms skipped by `nanmean`. -/
def ADS (tbl : List JoinedRow) (r : JoinedRow) : PFloat :=
  PFloat.psub (PFloat.num 1)
    (pmean (List.zipWith (fun b a => PFloat.pabs (PFloat.psub b a))
      [toP r.age_18_25, toP r.age_26_40, toP r.age_41_60, toP r.age_60_plus]
      (national_age_avg tbl)))

/-- Literacy Conformity Score. -/
def LCS (tbl : List JoinedRow) (r : JoinedRow) : PFloat :=
  deviation_score (toP r.literacy_rate_percent) (national_literacy_avg tbl)

/-- Turnout Alignment Score. -/
def TAS (tbl : List JoinedRow) (r : JoinedRow) : PFloat :=
  deviation_score (toP r.last_election_turnout_percent) (national_turnout_avg tbl)

/-- Statistical Health Score: the partial weighted average of the four
sub-scores at weights `[0.25, 0.30, 0.20, 0.25]`. -/
def SHS (tbl : List JoinedRow) (r : JoinedRow) : PFloat :=
  normalize_partial [GBS r, ADS tbl r, LCS tbl r, TAS tbl r]
    [1 / 4, 3 / 10, 1 / 5, 1 / 4]

/-- Net Migration Intensity: `safe_div(abs(net_migration), form6_addition_requests)`. -/
def NMI (r : JoinedRow) : PFloat :=
  safe_div (PFloat.pabs (toP r.net_migration)) (toP r.form6_addition_requests)

/-- Form 6 Request Ratio: `safe_div(form6_addition_requests, national_form6_avg)`. -/
def F6R (tbl : List JoinedRow) (r : JoinedRow) : PFloat :=
  safe_div (toP r.form6_addition_requests) (national_form6_avg tbl)

/-- Migration Pressure Index: weights `[0.6, 0.4]`. -/
def MPI (tbl : List JoinedRow) (r : JoinedRow) : PFloat :=
  normalize_partial [NMI r, F6R tbl r] [3 / 5, 2 / 5]

/-- The row's rejection rate `safe_div(rejected, total_requests)`. -/
def rejection_rate (r : JoinedRow) : PFloat :=
  safe_div (toP r.rejected) (toP r.total_requests)

/-- Rejection Rate Deviation: `safe_div(rejection_rate, national_rejection_rate_avg)`. -/
def RRD (tbl : List JoinedRow) (r : JoinedRow) : PFloat :=
  safe_div (rejection_rate r) (national_rejection_rate_avg tbl)

/-- The row's objection rate `safe_div(objections_raised, total_requests)`. -/
def objection_rate (r : JoinedRow) : PFloat :=
  safe_div (toP r.objections_raised) (toP r.total_requests)

/-- Objection Deviation: `safe_div(objection_rate, national_objection_rate_avg)`. -/
def ODD (tbl : List JoinedRow) (r : JoinedRow) : PFloat :=
  safe_div (objection_rate r) (national_objection_rate_avg tbl)

/-- Administrative Load Pressure:
`safe_div(cases_per_officer, national_max_cases_per_officer)`. -/
def ALP (tbl : List JoinedRow) (r : JoinedRow) : PFloat :=
  safe_div (toP r.cases_per_officer) (national_max_cases_per_officer tbl)

/-- Abuse of Process Score: weights `[0.4, 0.35, 0.25]`. -/
def APS (tbl : List JoinedRow) (r : JoinedRow) : PFloat :=
  normalize_partial [RRD tbl r, ODD tbl r, ALP tbl r] [2 / 5, 7 / 20, 1 / 4]

/-! ## Output records -/

/-- A row of `pc_final_metrics.csv`: a score cell holds `round(x, 4)` when
the score `x` is not NaN and the explicit absent marker (`None`) otherwise. -/
structure ScoreRow where
  pc_id : String
  state : String
  constituency_name : String
  statistical_health_score : Option PFloat
  migration_pressure_index : Option PFloat
  abuse_of_process_score : Option PFloat
deriving DecidableEq

/-- The record appended to `results` for one joined row. -/
def scoreRow (tbl : List JoinedRow) (r : JoinedRow) : ScoreRow :=
  { pc_id := r.pc_id
    state := r.state
    constituency_name := r.constituency_name
    statistical_health_score :=
      if (SHS tbl r).isna then none else some (round4 (SHS tbl r))
    migration_pressure_index :=
      if (MPI tbl r).isna then none else some (round4 (MPI tbl r))
    abuse_of_process_score :=
      if (APS tbl r).isna then none else some (round4 (APS tbl r)) }

/-- The `results` list: one output record per joined row, in order. -/
def results (tbl : List JoinedRow) : List ScoreRow := tbl.map (scoreRow tbl)

/-- The whole run: merge the three tables, then score every row. -/
def finalScores (demo : List DemoRow) (migration : List MigRow)
    (system : List SysRow) : List ScoreRow :=
  results (mergeTables demo migration system)

/-! ## Spec-side definitions

These two definitions follow the words of the spec/claims, to be compared
with the definitions above that embed the source. -/

/-- The surviving `(score, weight)` pairs of `weighted_partial_average` as
the spec words them: the pairs whose sub-score is present. -/
def survivors (scores : List (Option ℚ)) (weights : List ℚ) : List (ℚ × ℚ) :=
  (scores.zip weights).filterMap fun p => p.1.map fun q => (q, p.2)

/-- A rate baseline as claim C1 words it: the arithmetic mean of the per-row
ratios `numCol/denCol`, where a row with a zero or missing denominator (or a
missing numerator, whose ratio is missing) contributes no value — the mean
is taken over the remaining rows only, and is missing when no row remains. -/
def rate_baseline_claimed (tbl : List JoinedRow)
    (numCol denCol : JoinedRow → Option ℚ) : PFloat :=
  let ratios := tbl.filterMap fun r =>
    match numCol r, denCol r with
    | some a, some b => if b = 0 then none else some (a / b)
    | _, _ => none
  if ratios.isEmpty then PFloat.nan
  else PFloat.num (ratios.sum / (ratios.length : ℚ))

/-! ## Helper lemmas -/

lemma foldl_padd_num (l : List ℚ) :
    ∀ c : ℚ, (l.map PFloat.num).foldl PFloat.padd (PFloat.num c) = PFloat.num (c + l.sum) := by
  induction l with
  | nil => intro c; simp
  | cons a t ih => intro c; simp [ih, add_assoc]

lemma psum_map_num (l : List ℚ) : psum (l.map PFloat.num) = PFloat.num l.sum := by
  simpa [psum] using foldl_padd_num l 0

lemma pmean_map_num {l : List PFloat} {l' : List ℚ}
    (h : l.filter (fun x => !x.isna) = l'.map PFloat.num) :
    pmean l = if l'.isEmpty then PFloat.nan
      else PFloat.num (l'.sum / (l'.length : ℚ)) := by
  cases l' with
  | nil => simp [pmean, h]
  | cons a t =>
    have hlen : ((a :: t).length : ℚ) ≠ 0 := Nat.cast_ne_zero.mpr (by simp)
    have hemp : (List.map PFloat.num (a :: t)).isEmpty = false := by simp
    simp only [pmean, h, hemp, List.isEmpty_cons, Bool.false_eq_true, if_false,
      psum_map_num, List.length_map]
    rw [PFloat.pdiv_num_num _ hlen]

lemma survivors_nil_of_all_none {scores : List (Option ℚ)} {weights : List ℚ}
    (h : ∀ s ∈ scores, s = none) : survivors scores weights = [] := by
  induction scores generalizing weights with
  | nil => simp [survivors]
  | cons a t ih =>
    cases weights with
    | nil => simp [survivors]
    | cons w tw =>
      have ha : a = none := h a (by simp)
      have := @ih tw (fun s hs => h s (by simp [hs]))
      simpa [survivors, ha, List.filterMap_cons] using this

lemma valid_eq_survivors (scores : List (Option ℚ)) (weights : List ℚ) :
    ((scores.map toP).zip weights).filter (fun p => !p.1.isna)
      = (survivors scores weights).map (fun p => (PFloat.num p.1, p.2)) := by
  induction scores generalizing weights with
  | nil => simp [survivors]
  | cons a t ih =>
    cases weights with
    | nil => simp [survivors]
    | cons w tw =>
      cases a with
      | none => simpa [survivors, List.filterMap_cons] using ih tw
      | some q =>
        simpa [survivors, List.filterMap_cons] using ih tw

/-- `normalize_partial` over present-or-missing sub-scores, characterized in
the spec's terms. -/
lemma normalize_partial_eq_survivors (scores : List (Option ℚ)) (weights : List ℚ) :
    normalize_partial (scores.map toP) weights
      = if (survivors scores weights).isEmpty then PFloat.nan
        else PFloat.pdiv
          (PFloat.num ((survivors scores weights).map (fun p => p.1 * p.2)).sum)
          (PFloat.num ((survivors scores weights).map Prod.snd).sum) := by
  have hv := valid_eq_survivors scores weights
  by_cases hs : survivors scores weights = []
  · simp [ normalize_partial, hv, hs]
  · have hne : (survivors scores weights).isEmpty = false := by
      simpa [List.isEmpty_iff] using hs
    have hne' :
        ((survivors scores weights).map (fun p => (PFloat.num p.1, p.2))).isEmpty = false := by
      cases hsv : survivors scores weights with
      | nil => exact absurd hsv hs
      | cons a t => simp
    simp only [ normalize_partial, hv, hne', Bool.false_eq_true, if_false, List.map_map]
    have h1 : ((fun p : PFloat × ℚ => PFloat.pmul p.1 (PFloat.num p.2)) ∘
          (fun p : ℚ × ℚ => (PFloat.num p.1, p.2)))
        = PFloat.num ∘ (fun p : ℚ × ℚ => p.1 * p.2) := by
      funext p; simp [Function.comp]
    have h2 : (Prod.snd ∘ (fun p : ℚ × ℚ => (PFloat.num p.1, p.2)))
        = (Prod.snd : ℚ × ℚ → ℚ) := rfl
    rw [h1, h2, ← List.map_map PFloat.num, psum_map_num, hne]
    rfl

lemma survivors_snd_mem {p : ℚ × ℚ} :
    ∀ {scores : List (Option ℚ)} {weights : List ℚ},
      p ∈ survivors scores weights → p.2 ∈ weights := by
  intro scores
  induction scores with
  | nil => intro weights hp; simp [survivors] at hp
  | cons a t ih =>
    intro weights hp
    cases weights with
    | nil => simp [survivors] at hp
    | cons w tw =>
      cases a with
      | none =>
        have hp' : p ∈ survivors t tw := by
          simpa [survivors, List.filterMap_cons] using hp
        exact List.mem_cons_of_mem _ (ih hp')
      | some q =>
        rcases (by simpa [survivors, List.filterMap_cons] using hp :
            p = (q, w) ∨ p ∈ survivors t tw) with h | h
        · subst h; simp
        · exact List.mem_cons_of_mem _ (ih h)

lemma survivors_map_fst :
    ∀ {scores : List (Option ℚ)} {weights : List ℚ},
      scores.length = weights.length →
      (survivors scores weights).map Prod.fst = scores.filterMap id := by
  intro scores
  induction scores with
  | nil => intro weights h; simp [survivors]
  | cons a t ih =>
    intro weights h
    cases weights with
    | nil => simp at h
    | cons w tw =>
      have h' : t.length = tw.length := by simpa using h
      cases a with
      | none => simpa [survivors, List.filterMap_cons] using ih h'
      | some q => simpa [survivors, List.filterMap_cons] using ih h'

/-- C2: `weighted_partial_average` (the source's `normalize_partial`) drops
each pair whose sub-score is missing and returns the weighted mean of the
surviving scores normalized by the sum of the surviving weights only; with
every sub-score missing it returns missing; with exactly one sub-score
present it returns exactly that sub-score's value.  The weight sequence is
one of fixed positive weights, as in every use by the program. -/
theorem C2_weighted_partial_average (scores : List (Option ℚ)) (weights : List ℚ)
    (hlen : scores.length = weights.length) (hw : ∀ w ∈ weights, 0 < w) :
    (survivors scores weights ≠ [] →
      normalize_partial (scores.map toP) weights
        = PFloat.num (((survivors scores weights).map (fun p => p.1 * p.2)).sum
            / ((survivors scores weights).map Prod.snd).sum))
    ∧ ((∀ s ∈ scores, s = none) →
        normalize_partial (scores.map toP) weights = PFloat.nan)
    ∧ (∀ q : ℚ, scores.filterMap id = [q] →
        normalize_partial (scores.map toP) weights = PFloat.num q) := by
  have hmain : survivors scores weights ≠ [] →
      normalize_partial (scores.map toP) weights
        = PFloat.num (((survivors scores weights).map (fun p => p.1 * p.2)).sum
            / ((survivors scores weights).map Prod.snd).sum) := by
    intro hne
    have hpos : 0 < ((survivors scores weights).map Prod.snd).sum := by
      apply List.sum_pos
      · intro x hx
        obtain ⟨p, hp, rfl⟩ := List.mem_map.mp hx
        exact hw _ (survivors_snd_mem hp)
      · simpa using hne
    have hemp : (survivors scores weights).isEmpty = false := by
      simpa [List.isEmpty_iff] using hne
    rw [normalize_partial_eq_survivors]
    simp only [hemp, Bool.false_eq_true, if_false]
    exact PFloat.pdiv_num_num _ (ne_of_gt hpos)
  refine ⟨hmain, ?_, ?_⟩
  · intro h
    rw [normalize_partial_eq_survivors, survivors_nil_of_all_none h]
    simp
  · intro q hq
    have hfst : (survivors scores weights).map Prod.fst = [q] := by
      rw [survivors_map_fst hlen, hq]
    rcases hsv : survivors scores weights with _ | ⟨p, rest⟩
    · rw [hsv] at hfst; simp at hfst
    · rw [hsv] at hfst
      obtain ⟨hp1, hrest⟩ : p.1 = q ∧ rest.map Prod.fst = [] := by
        simpa using hfst
      have hrest' : rest = [] := by simpa using hrest
      subst hrest'
      have hwp : 0 < p.2 := hw _ (survivors_snd_mem (by rw [hsv]; simp))
      have := hmain (by rw [hsv]; simp)
      rw [hsv] at this
      simpa [hp1, mul_div_assoc, div_self (ne_of_gt hwp)] using this

/-- C2 witness: one present sub-score `1/2` among a missing one, positive
weights; the composite is exactly `1/2`. -/
theorem C2_weighted_partial_average_witness :
    normalize_partial (([some (1 / 2), none] : List (Option ℚ)).map toP)
      [3 / 10, 7 / 10] = PFloat.num (1 / 2) :=
  (C2_weighted_partial_average [some (1 / 2), none] [3 / 10, 7 / 10] (by simp)
    (by intro w hw; simp at hw; rcases hw with rfl | rfl <;> norm_num)).2.2
    (1 / 2) rfl

/-- C3: `deviation_score(value, reference)` on number-or-missing inputs is
missing exactly when an input is missing or the reference is zero; otherwise
it is `1 - |value - reference| / reference`, unclamped (a perfect match
scores 1, and the score can go negative). -/
theorem C3_deviation_score (v r : Option ℚ) :
    ((deviation_score (toP v) (toP r)).isna = true ↔ v = none ∨ r = none ∨ r = some 0)
    ∧ (∀ a b : ℚ, v = some a → r = some b → b ≠ 0 →
        deviation_score (toP v) (toP r) = PFloat.num (1 - |a - b| / b))
    ∧ (∀ x : ℚ, x ≠ 0 →
        deviation_score (PFloat.num x) (PFloat.num x) = PFloat.num 1)
    ∧ deviation_score (PFloat.num 3) (PFloat.num 1) = PFloat.num (-1) := by
  refine ⟨?_, ?_, ?_, ?_⟩
  · cases v with
    | none => simp [deviation_score]
    | some a =>
      cases r with
      | none => simp [deviation_score]
      | some b =>
        by_cases hb : b = 0
        · subst hb; simp [deviation_score]
        · simp [deviation_score, hb, PFloat.pdiv_num_num _ hb]
  · rintro a b rfl rfl hb
    simp [deviation_score, hb, PFloat.pdiv_num_num _ hb]
  · intro x hx
    simp [deviation_score, hx, PFloat.pdiv_num_num _ hx]
  · norm_num [deviation_score, PFloat.pdiv_num_num _ (one_ne_zero (α := ℚ))]

/-- C3 witness: at `value = reference = 3` the score is exactly 1. -/
theorem C3_deviation_score_witness :
    deviation_score (PFloat.num 3) (PFloat.num 3) = PFloat.num 1 :=
  (C3_deviation_score (some 3) (some 3)).2.2.1 3 (by norm_num)

/-- C4: `safe_div(a, b)` returns `a / b` when `b` is a nonzero number and
returns missing — it is a total function, never an exception — when `b` is
zero or a missing marker (pandas stores both null and NaN cells as NaN,
embedded here as `none`), for every `a`. -/
theorem C4_safe_div (a b : Option ℚ) :
    (∀ x y : ℚ, a = some x → b = some y → y ≠ 0 →
      safe_div (toP a) (toP b) = PFloat.num (x / y))
    ∧ (b = none ∨ b = some 0 → safe_div (toP a) (toP b) = PFloat.nan) := by
  constructor
  · rintro x y rfl rfl hy
    simp [safe_div, hy, PFloat.pdiv_num_num _ hy]
  · rintro (rfl | rfl) <;> simp [safe_div]

/-- C4 witness: `safe_div(7, 2) = 7/2`, `safe_div(7, null)` and
`safe_div(7, 0)` are missing. -/
theorem C4_safe_div_witness :
    safe_div (toP (some 7)) (toP (some 2)) = PFloat.num (7 / 2)
    ∧ safe_div (toP (some 7)) (toP none) = PFloat.nan
    ∧ safe_div (toP (some 7)) (toP (some 0)) = PFloat.nan :=
  ⟨(C4_safe_div (some 7) (some 2)).1 7 2 rfl rfl (by norm_num),
   (C4_safe_div (some 7) none).2 (Or.inl rfl),
   (C4_safe_div (some 7) (some 0)).2 (Or.inr rfl)⟩

lemma survivors_scale (k : ℚ) :
    ∀ {scores : List (Option ℚ)} {weights : List ℚ},
      survivors scores (weights.map fun w => k * w)
        = (survivors scores weights).map fun p => (p.1, k * p.2) := by
  intro scores
  induction scores with
  | nil => intro weights; simp [survivors]
  | cons a t ih =>
    intro weights
    cases weights with
    | nil => simp [survivors]
    | cons w tw =>
      cases a with
      | none => simpa [survivors, List.filterMap_cons] using @ih tw
      | some q => simpa [survivors, List.filterMap_cons] using @ih tw

lemma pdiv_num_scale {k : ℚ} (hk : 0 < k) (a b : ℚ) :
    PFloat.pdiv (PFloat.num (k * a)) (PFloat.num (k * b))
      = PFloat.pdiv (PFloat.num a) (PFloat.num b) := by
  by_cases hb : b = 0
  · subst hb
    rw [mul_zero]
    rcases lt_trichotomy a 0 with ha | ha | ha
    · rw [PFloat.pdiv_num_zero_neg (mul_neg_of_pos_of_neg hk ha),
        PFloat.pdiv_num_zero_neg ha]
    · subst ha; rw [mul_zero]
    · rw [PFloat.pdiv_num_zero_pos (mul_pos hk ha), PFloat.pdiv_num_zero_pos ha]
  · have hkb : k * b ≠ 0 := mul_ne_zero (ne_of_gt hk) hb
    rw [PFloat.pdiv_num_num _ hkb, PFloat.pdiv_num_num _ hb,
      mul_div_mul_left _ _ (ne_of_gt hk)]

lemma sum_prod_mul_left (k : ℚ) (S : List (ℚ × ℚ)) :
    ((S.map fun p => (p.1, k * p.2)).map fun p => p.1 * p.2).sum
      = k * (S.map fun p => p.1 * p.2).sum := by
  induction S with
  | nil => simp
  | cons p t ih =>
    simp only [List.map_cons, List.sum_cons, ih]
    ring

lemma sum_prod_snd_left (k : ℚ) (S : List (ℚ × ℚ)) :
    ((S.map fun p => (p.1, k * p.2)).map Prod.snd).sum = k * (S.map Prod.snd).sum := by
  induction S with
  | nil => simp
  | cons p t ih =>
    simp only [List.map_cons, List.sum_cons, ih]
    ring

/-- C6: composite scores are invariant to a positive uniform scaling of the
weight vector: `weighted_partial_average` at weights `[k*w1, ..., k*wn]`
equals the one at `[w1, ..., wn]` for every `k > 0`. -/
theorem C6_weight_scaling (scores : List (Option ℚ)) (weights : List ℚ)
    (k : ℚ) (hk : 0 < k) :
    normalize_partial (scores.map toP) (weights.map fun w => k * w)
      = normalize_partial (scores.map toP) weights := by
  rw [normalize_partial_eq_survivors, normalize_partial_eq_survivors,
    survivors_scale k]
  by_cases hs : survivors scores weights = []
  · simp [hs]
  · have hemp : (survivors scores weights).isEmpty = false := by
      simpa [List.isEmpty_iff] using hs
    have hemp' : ((survivors scores weights).map fun p => (p.1, k * p.2)).isEmpty
        = false := by
      rcases hsv : survivors scores weights with _ | ⟨p, rest⟩
      · exact absurd hsv hs
      · simp
    simp only [hemp, hemp', Bool.false_eq_true, if_false,
      sum_prod_mul_left, sum_prod_snd_left]
    exact pdiv_num_scale hk _ _

/-- C6 witness: doubling the weights `[1/2, 1/2]` leaves the composite of
`[some 1, missing]` unchanged. -/
theorem C6_weight_scaling_witness :
    normalize_partial (([some 1, none] : List (Option ℚ)).map toP)
        ([1 / 2, 1 / 2].map fun w => 2 * w)
      = normalize_partial (([some 1, none] : List (Option ℚ)).map toP)
        [1 / 2, 1 / 2] :=
  C6_weight_scaling [some 1, none] [1 / 2, 1 / 2] 2 (by norm_num)

lemma ratio_filter_eq (tbl : List JoinedRow) (numCol denCol : JoinedRow → Option ℚ)
    (h : ∀ r ∈ tbl, denCol r = some 0 → numCol r = none ∨ numCol r = some 0) :
    (tbl.map fun r => PFloat.pdiv (toP (numCol r)) (toP (denCol r))).filter
        (fun x => !x.isna)
      = (tbl.filterMap fun r =>
          match numCol r, denCol r with
          | some a, some b => if b = 0 then none else some (a / b)
          | _, _ => none).map PFloat.num := by
  induction tbl with
  | nil => simp
  | cons r t ih =>
    have ht := ih (fun x hx h0 => h x (List.mem_cons_of_mem _ hx) h0)
    rcases hn : numCol r with _ | a
    · simpa [List.filter_cons, List.filterMap_cons, hn] using ht
    · rcases hd : denCol r with _ | b
      · simpa [List.filter_cons, List.filterMap_cons, hn, hd] using ht
      · by_cases hb : b = 0
        · subst hb
          have ha : a = 0 := by
            rcases h r (by simp) hd with h0 | h0
            · rw [hn] at h0; cases h0
            · rw [hn] at h0; simpa using h0
          subst ha
          simpa [List.filter_cons, List.filterMap_cons, hn, hd] using ht
        · simpa [List.filter_cons, List.filterMap_cons, hn, hd, hb,
            PFloat.pdiv_num_num _ hb] using ht

/-- A demographic row carrying only the constituency key (every numeric
cell missing). -/
def demoNone : DemoRow :=
  ⟨"PC001", "State", "Name", none, none, none, none, none, none, none, none, none⟩

/-- A system-load row whose request total is zero while five requests were
rejected (the shape `analysis.py` turns into an infinite per-row ratio). -/
def sysZeroDenom : SysRow :=
  ⟨"PC001", "State", "Name", some 0, none, some 5, none, none, none, none, none, none⟩

/-- A system-load row with a well-defined rejection and objection rate. -/
def sysOkDenom : SysRow :=
  ⟨"PC001", "State", "Name", some 10, none, some 2, none, some 1, none, none, none, none⟩

/-- C1 counterexample: on the joined table with one row having
`rejected = 5` and `total_requests = 0`, the source baseline
`(df["rejected"] / df["total_requests"]).mean()` is `+inf` — the row
contributes an infinite ratio to the mean — while the mean the claim
describes (that row contributing no value) is the empty mean, i.e. missing. -/
theorem C1_rate_baseline_counterexample :
    national_rejection_rate_avg [⟨demoNone, none, some sysZeroDenom⟩] = PFloat.inf
    ∧ rate_baseline_claimed [⟨demoNone, none, some sysZeroDenom⟩]
        JoinedRow.rejected JoinedRow.total_requests = PFloat.nan
    ∧ national_rejection_rate_avg [⟨demoNone, none, some sysZeroDenom⟩]
        ≠ rate_baseline_claimed [⟨demoNone, none, some sysZeroDenom⟩]
            JoinedRow.rejected JoinedRow.total_requests := by
  have h1 : national_rejection_rate_avg [⟨demoNone, none, some sysZeroDenom⟩]
      = PFloat.inf := by
    norm_num [national_rejection_rate_avg, pmean, psum, JoinedRow.rejected,
      JoinedRow.total_requests, sysZeroDenom, SysRow.rejected,
      SysRow.total_requests, Option.bind, PFloat.pdiv, PFloat.padd, PFloat.isna]
  have h2 : rate_baseline_claimed [⟨demoNone, none, some sysZeroDenom⟩]
      JoinedRow.rejected JoinedRow.total_requests = PFloat.nan := by
    norm_num [rate_baseline_claimed, JoinedRow.rejected, JoinedRow.total_requests,
      sysZeroDenom, SysRow.rejected, SysRow.total_requests, Option.bind,
      List.filterMap_cons]
  refine ⟨h1, h2, ?_⟩
  rw [h1, h2]
  decide

/-- C1 (amended): the rejection-rate (objection-rate) baseline is the mean
of the per-row ratios over the rows whose ratio is defined — a row with a
missing operand or a `0/0` ratio contributes no value — **provided** no row
has a zero `total_requests` under a nonzero `rejected`
(`objections_raised`); such a row contributes an infinite ratio to the mean
instead of being dropped. -/
theorem C1_rate_baselines_amended (tbl : List JoinedRow)
    (hrej : ∀ r ∈ tbl, r.total_requests = some 0 →
      r.rejected = none ∨ r.rejected = some 0)
    (hobj : ∀ r ∈ tbl, r.total_requests = some 0 →
      r.objections_raised = none ∨ r.objections_raised = some 0) :
    national_rejection_rate_avg tbl
        = rate_baseline_claimed tbl JoinedRow.rejected JoinedRow.total_requests
    ∧ national_objection_rate_avg tbl
        = rate_baseline_claimed tbl JoinedRow.objections_raised
            JoinedRow.total_requests := by
  constructor
  · unfold national_rejection_rate_avg rate_baseline_claimed
    exact pmean_map_num (ratio_filter_eq tbl _ _ hrej)
  · unfold national_objection_rate_avg rate_baseline_claimed
    exact pmean_map_num (ratio_filter_eq tbl _ _ hobj)

/-- C1 witness: a table whose single row has `total_requests = 10`,
`rejected = 2`, `objections_raised = 1`; both baselines agree with the
claimed per-row-ratio means. -/
theorem C1_rate_baselines_amended_witness :
    national_rejection_rate_avg [⟨demoNone, none, some sysOkDenom⟩]
        = rate_baseline_claimed [⟨demoNone, none, some sysOkDenom⟩]
            JoinedRow.rejected JoinedRow.total_requests
    ∧ national_objection_rate_avg [⟨demoNone, none, some sysOkDenom⟩]
        = rate_baseline_claimed [⟨demoNone, none, some sysOkDenom⟩]
            JoinedRow.objections_raised JoinedRow.total_requests :=
  C1_rate_baselines_amended [⟨demoNone, none, some sysOkDenom⟩]
    (by
      intro r hr h0
      simp only [List.mem_singleton] at hr
      subst hr
      simp [JoinedRow.total_requests, sysOkDenom, SysRow.total_requests,
        Option.bind] at h0)
    (by
      intro r hr h0
      simp only [List.mem_singleton] at hr
      subst hr
      simp [JoinedRow.total_requests, sysOkDenom, SysRow.total_requests,
        Option.bind] at h0)

/-- C8: with `pc_id` unique within each input table, the output has exactly
one row per demographics input row, in demographics order, and every input
`pc_id` appears exactly once among the output's `pc_id`s. -/
theorem C8_output_alignment (demo : List DemoRow) (migration : List MigRow)
    (system : List SysRow)
    (hd : (demo.map DemoRow.pc_id).Nodup)
    (hm : (migration.map MigRow.pc_id).Nodup)
    (hs : (system.map SysRow.pc_id).Nodup) :
    (finalScores demo migration system).length = demo.length
    ∧ (finalScores demo migration system).map ScoreRow.pc_id = demo.map DemoRow.pc_id
    ∧ ∀ p ∈ demo.map DemoRow.pc_id,
        ((finalScores demo migration system).map ScoreRow.pc_id).count p = 1 := by
  have hmap : (finalScores demo migration system).map ScoreRow.pc_id
      = demo.map DemoRow.pc_id := by
    simp [finalScores, results, mergeTables, List.map_map, Function.comp,
      scoreRow, JoinedRow.pc_id]
  refine ⟨?_, hmap, ?_⟩
  · simp [finalScores, results, mergeTables]
  · intro p hp
    rw [hmap]
    exact List.count_eq_one_of_mem hd hp

/-- C8 witness: a one-row demographics table against empty migration and
system-load tables. -/
theorem C8_output_alignment_witness :
    (finalScores [demoNone] [] []).length = [demoNone].length
    ∧ (finalScores [demoNone] [] []).map ScoreRow.pc_id = [demoNone].map DemoRow.pc_id
    ∧ ∀ p ∈ [demoNone].map DemoRow.pc_id,
        ((finalScores [demoNone] [] []).map ScoreRow.pc_id).count p = 1 :=
  C8_output_alignment [demoNone] [] [] (by simp) (by simp) (by simp)

/-- C10: on a row whose four age brackets are all missing, the Age
Distribution Score evaluates to missing (no exception: every operation is
total), and the Statistical Health Score reduces to the partial weighted
average of the gender, literacy and turnout sub-scores over the weights
`[0.25, 0.20, 0.25]`. -/
theorem C10_all_age_missing (tbl : List JoinedRow) (r : JoinedRow)
    (h1 : r.age_18_25 = none) (h2 : r.age_26_40 = none)
    (h3 : r.age_41_60 = none) (h4 : r.age_60_plus = none) :
    (ADS tbl r).isna = true
    ∧ SHS tbl r
        = normalize_partial [GBS r, LCS tbl r, TAS tbl r] [1 / 4, 1 / 5, 1 / 4] := by
  have hA : ADS tbl r = PFloat.nan := by
    simp [ADS, national_age_avg, h1, h2, h3, h4, pmean]
  refine ⟨by rw [hA]; rfl, ?_⟩
  cases hg : (GBS r).isna <;> cases hl : (LCS tbl r).isna <;>
    cases ht : (TAS tbl r).isna <;>
      simp [SHS, normalize_partial, hA, hg, hl, ht]

/-- C10 witness: the joined row with no demographic values at all has a
missing Age Distribution Score, and its SHS is the three-way composite. -/
theorem C10_all_age_missing_witness :
    (ADS [⟨demoNone, none, none⟩] ⟨demoNone, none, none⟩).isna = true
    ∧ SHS [⟨demoNone, none, none⟩] ⟨demoNone, none, none⟩
        = normalize_partial
            [GBS ⟨demoNone, none, none⟩,
             LCS [⟨demoNone, none, none⟩] ⟨demoNone, none, none⟩,
             TAS [⟨demoNone, none, none⟩] ⟨demoNone, none, none⟩]
            [1 / 4, 1 / 5, 1 / 4] :=
  C10_all_age_missing [⟨demoNone, none, none⟩] ⟨demoNone, none, none⟩ rfl rfl rfl rfl

/-- The Age Distribution Score as claim C9 words it: 1 minus the mean of
`|age_bracket_i - national_avg_age_bracket_i|` over the four brackets, a
bracket with a missing value contributing no term; missing when no term
remains.  The input pairs each bracket cell with its (present) national
average. -/
def ADS_claimed (brackets : List (Option ℚ × ℚ)) : PFloat :=
  let ds := brackets.filterMap fun p => p.1.map fun b => |b - p.2|
  if ds.isEmpty then PFloat.nan
  else PFloat.num (1 - ds.sum / (ds.length : ℚ))

lemma abs_term_filter_eq (ps : List (Option ℚ × ℚ)) :
    (ps.map fun p => PFloat.pabs (PFloat.psub (toP p.1) (PFloat.num p.2))).filter
        (fun x => !x.isna)
      = (ps.filterMap fun p => p.1.map fun b => |b - p.2|).map PFloat.num := by
  induction ps with
  | nil => simp
  | cons p t ih =>
    rcases hp : p.1 with _ | b
    · simpa [List.filter_cons, List.filterMap_cons, hp] using ih
    · simpa [List.filter_cons, List.filterMap_cons, hp] using ih

/-- C9: when the four national average brackets are present, the Age
Distribution Score is exactly `1 - mean |bracket - average|` over the
brackets whose value is present (missing when none is), with no
zero-reference gate: the formula holds whatever the averages are, zero
included. -/
theorem C9_age_distribution_score (tbl : List JoinedRow) (r : JoinedRow)
    (a1 a2 a3 a4 : ℚ)
    (h1 : colMean tbl JoinedRow.age_18_25 = PFloat.num a1)
    (h2 : colMean tbl JoinedRow.age_26_40 = PFloat.num a2)
    (h3 : colMean tbl JoinedRow.age_41_60 = PFloat.num a3)
    (h4 : colMean tbl JoinedRow.age_60_plus = PFloat.num a4) :
    ADS tbl r
      = ADS_claimed [(r.age_18_25, a1), (r.age_26_40, a2),
          (r.age_41_60, a3), (r.age_60_plus, a4)] := by
  have hterm : List.zipWith (fun b a => PFloat.pabs (PFloat.psub b a))
      [toP r.age_18_25, toP r.age_26_40, toP r.age_41_60, toP r.age_60_plus]
      (national_age_avg tbl)
    = ([(r.age_18_25, a1), (r.age_26_40, a2), (r.age_41_60, a3),
        (r.age_60_plus, a4)]).map
        (fun p => PFloat.pabs (PFloat.psub (toP p.1) (PFloat.num p.2))) := by
    simp [national_age_avg, h1, h2, h3, h4]
  rw [ADS, hterm, pmean_map_num (abs_term_filter_eq _)]
  cases hE : (([(r.age_18_25, a1), (r.age_26_40, a2), (r.age_41_60, a3),
      (r.age_60_plus, a4)]).filterMap fun p => p.1.map fun b => |b - p.2|).isEmpty
  · simp [ADS_claimed, hE]
  · simp [ADS_claimed, hE]

/-- A demographic row whose age brackets are `[0, 3/10, 3/10, 2/5]` (other
cells missing). -/
def demoAges : DemoRow :=
  ⟨"PC001", "State", "Name", none, none, none,
   some 0, some (3 / 10), some (3 / 10), some (2 / 5), none, none⟩

/-- C9 witness: a one-row table whose first national average bracket is 0 —
the formula applies unchanged (no zero-reference guard). -/
theorem C9_age_distribution_score_witness :
    ADS [⟨demoAges, none, none⟩] ⟨demoAges, none, none⟩
      = ADS_claimed [((⟨demoAges, none, none⟩ : JoinedRow).age_18_25, 0),
          ((⟨demoAges, none, none⟩ : JoinedRow).age_26_40, 3 / 10),
          ((⟨demoAges, none, none⟩ : JoinedRow).age_41_60, 3 / 10),
          ((⟨demoAges, none, none⟩ : JoinedRow).age_60_plus, 2 / 5)] :=
  C9_age_distribution_score [⟨demoAges, none, none⟩] ⟨demoAges, none, none⟩
    0 (3 / 10) (3 / 10) (2 / 5)
    (by norm_num [colMean, pmean, psum, JoinedRow.age_18_25, demoAges,
      PFloat.pdiv])
    (by norm_num [colMean, pmean, psum, JoinedRow.age_26_40, demoAges,
      PFloat.pdiv])
    (by norm_num [colMean, pmean, psum, JoinedRow.age_41_60, demoAges,
      PFloat.pdiv])
    (by norm_num [colMean, pmean, psum, JoinedRow.age_60_plus, demoAges,
      PFloat.pdiv])

/-- A float that is not an infinity: a finite number or NaN.  Every cell of
the input tables embeds to such a value, and so does every mean of one. -/
def finOrNan (x : PFloat) : Prop := x = PFloat.nan ∨ ∃ q, x = PFloat.num q

lemma toP_finOrNan (o : Option ℚ) : finOrNan (toP o) := by
  cases o with
  | none => exact Or.inl rfl
  | some q => exact Or.inr ⟨q, rfl⟩

lemma filter_eq_map_num {l : List PFloat} (h : ∀ x ∈ l, finOrNan x) :
    ∃ l' : List ℚ, l.filter (fun x => !x.isna) = l'.map PFloat.num
      ∧ ∀ q ∈ l', PFloat.num q ∈ l := by
  induction l with
  | nil => exact ⟨[], by simp, by simp⟩
  | cons a t ih =>
    obtain ⟨l', hl', hmem⟩ := ih (fun x hx => h x (List.mem_cons_of_mem _ hx))
    rcases h a (by simp) with rfl | ⟨q, rfl⟩
    · exact ⟨l', by simp [List.filter_cons, hl'],
        fun q hq => List.mem_cons_of_mem _ (hmem q hq)⟩
    · refine ⟨q :: l', by simp [List.filter_cons, hl'], ?_⟩
      intro q' hq'
      rcases List.mem_cons.mp hq' with rfl | hq'
      · exact List.mem_cons_self _ _
      · exact List.mem_cons_of_mem _ (hmem q' hq')

lemma pmean_finOrNan {l : List PFloat} (h : ∀ x ∈ l, finOrNan x) :
    finOrNan (pmean l) := by
  obtain ⟨l', hl', -⟩ := filter_eq_map_num h
  rw [pmean_map_num hl']
  cases l' with
  | nil => exact Or.inl (by simp)
  | cons a t => exact Or.inr ⟨(a :: t).sum / ((a :: t).length : ℚ), by simp⟩

lemma colMean_finOrNan (tbl : List JoinedRow) (col : JoinedRow → Option ℚ) :
    finOrNan (colMean tbl col) := by
  apply pmean_finOrNan
  intro x hx
  obtain ⟨r, -, rfl⟩ := List.mem_map.mp hx
  exact toP_finOrNan _

lemma pmean_zero_or_nan {l : List PFloat}
    (h : ∀ x ∈ l, x = PFloat.num 0 ∨ x = PFloat.nan) :
    pmean l = PFloat.num 0 ∨ pmean l = PFloat.nan := by
  have h' : ∀ x ∈ l, finOrNan x := fun x hx =>
    (h x hx).elim (fun e => Or.inr ⟨0, e⟩) Or.inl
  obtain ⟨l', hl', hmem⟩ := filter_eq_map_num h'
  rw [pmean_map_num hl']
  cases l' with
  | nil => exact Or.inr (by simp)
  | cons a t =>
    left
    have hz : ∀ q ∈ (a :: t), q = 0 := by
      intro q hq
      rcases h _ (hmem q hq) with he | he
      · simpa using he
      · exact PFloat.noConfusion he
    have hsum : (a :: t).sum = 0 := List.sum_eq_zero hz
    simp [hsum]

lemma abs_sub_self_zero_or_nan {x : PFloat} (h : finOrNan x) :
    PFloat.pabs (PFloat.psub x x) = PFloat.num 0
      ∨ PFloat.pabs (PFloat.psub x x) = PFloat.nan := by
  rcases h with rfl | ⟨q, rfl⟩
  · exact Or.inr (by simp)
  · exact Or.inl (by simp)

lemma dev_num_self {q : ℚ} (hq : q ≠ 0) :
    deviation_score (PFloat.num q) (PFloat.num q) = PFloat.num 1 := by
  simp [deviation_score, hq, PFloat.pdiv_num_num _ hq]

lemma dev_self_one_or_nan {x : PFloat} (h : finOrNan x) :
    deviation_score x x = PFloat.num 1 ∨ deviation_score x x = PFloat.nan := by
  rcases h with rfl | ⟨q, rfl⟩
  · exact Or.inr (by simp [deviation_score])
  · by_cases hq : q = 0
    · exact Or.inr (by simp [deviation_score, hq])
    · exact Or.inl (dev_num_self hq)

/-- C5: a row whose gender ratio is exactly `0.5`, whose age brackets equal
the national average brackets, and whose literacy and turnout equal the
national averages, has a Statistical Health Score of exactly 1. -/
theorem C5_round_trip (tbl : List JoinedRow) (r : JoinedRow) (f t : ℚ)
    (hf : r.female_voters = some f) (htv : r.total_registered_voters = some t)
    (ht0 : t ≠ 0) (hhalf : f / t = 1 / 2)
    (hb1 : toP r.age_18_25 = colMean tbl JoinedRow.age_18_25)
    (hb2 : toP r.age_26_40 = colMean tbl JoinedRow.age_26_40)
    (hb3 : toP r.age_41_60 = colMean tbl JoinedRow.age_41_60)
    (hb4 : toP r.age_60_plus = colMean tbl JoinedRow.age_60_plus)
    (hlit : toP r.literacy_rate_percent = national_literacy_avg tbl)
    (htur : toP r.last_election_turnout_percent = national_turnout_avg tbl) :
    SHS tbl r = PFloat.num 1 := by
  have hGBS : GBS r = PFloat.num 1 := by
    have hval : safe_div (toP r.female_voters) (toP r.total_registered_voters)
        = PFloat.num (1 / 2) := by
      rw [hf, htv]
      simp only [toP_some]
      rw [safe_div, if_neg (by simp [ht0]), PFloat.pdiv_num_num _ ht0, hhalf]
    rw [GBS, hval]
    exact dev_num_self (by norm_num)
  have hADS : ADS tbl r = PFloat.num 1 ∨ ADS tbl r = PFloat.nan := by
    simp only [ADS, national_age_avg, List.zipWith_cons_cons, List.zipWith_nil_left,
      hb1, hb2, hb3, hb4]
    rcases pmean_zero_or_nan (l :=
        [PFloat.pabs (PFloat.psub (colMean tbl JoinedRow.age_18_25)
          (colMean tbl JoinedRow.age_18_25)),
         PFloat.pabs (PFloat.psub (colMean tbl JoinedRow.age_26_40)
          (colMean tbl JoinedRow.age_26_40)),
         PFloat.pabs (PFloat.psub (colMean tbl JoinedRow.age_41_60)
          (colMean tbl JoinedRow.age_41_60)),
         PFloat.pabs (PFloat.psub (colMean tbl JoinedRow.age_60_plus)
          (colMean tbl JoinedRow.age_60_plus))])
      (by
        intro x hx
        simp only [List.mem_cons, List.not_mem_nil, or_false] at hx
        rcases hx with rfl | rfl | rfl | rfl <;>
          exact abs_sub_self_zero_or_nan (colMean_finOrNan _ _)) with he | he
    · rw [he]
      exact Or.inl (by norm_num)
    · rw [he]
      exact Or.inr (by simp)
  have hLCS : LCS tbl r = PFloat.num 1 ∨ LCS tbl r = PFloat.nan := by
    rw [LCS, hlit]
    exact dev_self_one_or_nan (colMean_finOrNan tbl _)
  have hTAS : TAS tbl r = PFloat.num 1 ∨ TAS tbl r = PFloat.nan := by
    rw [TAS, htur]
    exact dev_self_one_or_nan (colMean_finOrNan tbl _)
  rcases hADS with hA | hA <;> rcases hLCS with hL | hL <;> rcases hTAS with hT | hT <;>
    · rw [SHS, hGBS, hA, hL, hT]
      norm_num [ normalize_partial, psum, List.foldl, PFloat.pdiv, PFloat.pmul,
        PFloat.padd]

/-- A fully populated demographic row with an exact 50-50 gender split. -/
def demoHalf : DemoRow :=
  ⟨"PC001", "State", "Name", some 2, some 1, some 1,
   some (1 / 5), some (3 / 10), some (3 / 10), some (1 / 5), some 70, some 60⟩

/-- C5 witness: in the one-row table of `demoHalf`, every bracket, literacy
and turnout equals its national average and the gender ratio is 1/2, so the
SHS is exactly 1. -/
theorem C5_round_trip_witness :
    SHS [⟨demoHalf, none, none⟩] ⟨demoHalf, none, none⟩ = PFloat.num 1 :=
  C5_round_trip [⟨demoHalf, none, none⟩] ⟨demoHalf, none, none⟩ 1 2
    rfl rfl (by norm_num) (by norm_num)
    (by norm_num [colMean, pmean, psum, List.foldl, JoinedRow.age_18_25,
      demoHalf, PFloat.pdiv])
    (by norm_num [colMean, pmean, psum, List.foldl, JoinedRow.age_26_40,
      demoHalf, PFloat.pdiv])
    (by norm_num [colMean, pmean, psum, List.foldl, JoinedRow.age_41_60,
      demoHalf, PFloat.pdiv])
    (by norm_num [colMean, pmean, psum, List.foldl, JoinedRow.age_60_plus,
      demoHalf, PFloat.pdiv])
    (by norm_num [colMean, pmean, psum, List.foldl, national_literacy_avg,
      JoinedRow.literacy_rate_percent, demoHalf, PFloat.pdiv])
    (by norm_num [colMean, pmean, psum, List.foldl, national_turnout_avg,
      JoinedRow.last_election_turnout_percent, demoHalf, PFloat.pdiv])

lemma psub_finOrNan {a b : PFloat} (ha : finOrNan a) (hb : finOrNan b) :
    finOrNan (PFloat.psub a b) := by
  rcases ha with rfl | ⟨q, rfl⟩
  · exact Or.inl (by simp)
  · rcases hb with rfl | ⟨q', rfl⟩
    · exact Or.inl (by simp)
    · exact Or.inr ⟨q - q', by simp⟩

lemma pabs_finOrNan {a : PFloat} (ha : finOrNan a) : finOrNan (PFloat.pabs a) := by
  rcases ha with rfl | ⟨q, rfl⟩
  · exact Or.inl (by simp)
  · exact Or.inr ⟨|q|, by simp⟩

lemma safe_div_finOrNan {a : PFloat} (ha : finOrNan a) (b : PFloat) :
    finOrNan (safe_div a b) := by
  rw [safe_div]
  by_cases hb : b = PFloat.num 0 ∨ b.isna = true
  · rw [if_pos hb]; exact Or.inl rfl
  · rw [if_neg hb]
    rcases ha with rfl | ⟨q, rfl⟩
    · exact Or.inl (by simp)
    · push_neg at hb
      cases b with
      | num r =>
        have hr : r ≠ 0 := fun he => hb.1 (by rw [he])
        exact Or.inr ⟨q / r, PFloat.pdiv_num_num _ hr⟩
      | inf => exact Or.inr ⟨0, rfl⟩
      | ninf => exact Or.inr ⟨0, rfl⟩
      | nan => exact absurd rfl hb.2

lemma deviation_score_finOrNan {v r : PFloat} (hv : finOrNan v) (hr : finOrNan r) :
    finOrNan (deviation_score v r) := by
  rw [deviation_score]
  by_cases hc : v.isna = true ∨ r.isna = true ∨ r = PFloat.num 0
  · rw [if_pos hc]; exact Or.inl rfl
  · rw [if_neg hc]
    push_neg at hc
    rcases hv with rfl | ⟨a, rfl⟩
    · exact absurd rfl hc.1
    · rcases hr with rfl | ⟨b, rfl⟩
      · exact absurd rfl hc.2.1
      · have hb : b ≠ 0 := fun he => hc.2.2 (by rw [he])
        exact Or.inr ⟨1 - |a - b| / b, by
          simp [PFloat.pdiv_num_num _ hb]⟩

lemma map_pmul_eq_map_num {l : List (PFloat × ℚ)}
    (h : ∀ p ∈ l, ∃ q, p.1 = PFloat.num q) :
    ∃ l' : List ℚ,
      l.map (fun p => PFloat.pmul p.1 (PFloat.num p.2)) = l'.map PFloat.num := by
  induction l with
  | nil => exact ⟨[], by simp⟩
  | cons p t ih =>
    obtain ⟨q, hq⟩ := h p (by simp)
    obtain ⟨l', hl'⟩ := ih (fun x hx => h x (List.mem_cons_of_mem _ hx))
    exact ⟨q * p.2 :: l', by simp [hq, hl']⟩

lemma normalize_partial_finOrNan {scores : List PFloat} {weights : List ℚ}
    (hsc : ∀ s ∈ scores, finOrNan s) (hw : ∀ w ∈ weights, 0 < w) :
    finOrNan ( normalize_partial scores weights) := by
  rw [ normalize_partial]
  by_cases hv : ((scores.zip weights).filter (fun p => !p.1.isna)).isEmpty = true
  · simp only [hv, if_true]
    exact Or.inl rfl
  · simp only [hv, Bool.false_eq_true, if_false]
    have hmem : ∀ p ∈ (scores.zip weights).filter (fun p => !p.1.isna),
        (∃ q, p.1 = PFloat.num q) ∧ 0 < p.2 := by
      intro p hp
      have hz := List.mem_of_mem_filter hp
      have hnn : p.1.isna = false := by
        have := List.of_mem_filter hp
        simpa using this
      obtain ⟨h1, h2⟩ := List.of_mem_zip hz
      refine ⟨?_, hw _ h2⟩
      rcases hsc _ h1 with he | ⟨q, hq⟩
      · rw [he] at hnn; simp at hnn
      · exact ⟨q, hq⟩
    obtain ⟨l', hl'⟩ := map_pmul_eq_map_num (fun p hp => (hmem p hp).1)
    rw [hl', psum_map_num]
    have hpos : 0 < (((scores.zip weights).filter
        (fun p => !p.1.isna)).map Prod.snd).sum := by
      apply List.sum_pos
      · intro x hx
        obtain ⟨p, hp, rfl⟩ := List.mem_map.mp hx
        exact (hmem p hp).2
      · intro he
        rw [List.map_eq_nil_iff] at he
        rw [he] at hv
        simp at hv
    exact Or.inr ⟨_, PFloat.pdiv_num_num _ (ne_of_gt hpos)⟩

lemma GBS_finOrNan (r : JoinedRow) : finOrNan (GBS r) :=
  deviation_score_finOrNan (safe_div_finOrNan (toP_finOrNan _) _) (Or.inr ⟨_, rfl⟩)

lemma ADS_finOrNan (tbl : List JoinedRow) (r : JoinedRow) : finOrNan (ADS tbl r) := by
  apply psub_finOrNan (Or.inr ⟨1, rfl⟩)
  apply pmean_finOrNan
  intro x hx
  simp only [national_age_avg, List.zipWith_cons_cons, List.zipWith_nil_left,
    List.mem_cons, List.not_mem_nil, or_false] at hx
  rcases hx with rfl | rfl | rfl | rfl <;>
    exact pabs_finOrNan (psub_finOrNan (toP_finOrNan _) (colMean_finOrNan _ _))

lemma LCS_finOrNan (tbl : List JoinedRow) (r : JoinedRow) : finOrNan (LCS tbl r) :=
  deviation_score_finOrNan (toP_finOrNan _) (colMean_finOrNan _ _)

lemma TAS_finOrNan (tbl : List JoinedRow) (r : JoinedRow) : finOrNan (TAS tbl r) :=
  deviation_score_finOrNan (toP_finOrNan _) (colMean_finOrNan _ _)

lemma SHS_finOrNan (tbl : List JoinedRow) (r : JoinedRow) : finOrNan (SHS tbl r) := by
  apply normalize_partial_finOrNan
  · intro s hs
    simp only [List.mem_cons, List.not_mem_nil, or_false] at hs
    rcases hs with rfl | rfl | rfl | rfl
    exacts [GBS_finOrNan r, ADS_finOrNan tbl r, LCS_finOrNan tbl r, TAS_finOrNan tbl r]
  · intro w hw
    simp only [List.mem_cons, List.not_mem_nil, or_false] at hw
    rcases hw with rfl | rfl | rfl | rfl <;> norm_num

lemma MPI_finOrNan (tbl : List JoinedRow) (r : JoinedRow) : finOrNan (MPI tbl r) := by
  apply normalize_partial_finOrNan
  · intro s hs
    simp only [List.mem_cons, List.not_mem_nil, or_false] at hs
    rcases hs with rfl | rfl
    exacts [safe_div_finOrNan (pabs_finOrNan (toP_finOrNan _)) _,
      safe_div_finOrNan (toP_finOrNan _) _]
  · intro w hw
    simp only [List.mem_cons, List.not_mem_nil, or_false] at hw
    rcases hw with rfl | rfl <;> norm_num

lemma APS_finOrNan (tbl : List JoinedRow) (r : JoinedRow) : finOrNan (APS tbl r) := by
  apply normalize_partial_finOrNan
  · intro s hs
    simp only [List.mem_cons, List.not_mem_nil, or_false] at hs
    rcases hs with rfl | rfl | rfl
    exacts [safe_div_finOrNan (safe_div_finOrNan (toP_finOrNan _) _) _,
      safe_div_finOrNan (safe_div_finOrNan (toP_finOrNan _) _) _,
      safe_div_finOrNan (toP_finOrNan _) _]
  · intro w hw
    simp only [List.mem_cons, List.not_mem_nil, or_false] at hw
    rcases hw with rfl | rfl | rfl <;> norm_num

/-- A well-formed output score cell: the explicit absent marker, or a finite
number (never NaN, never an infinity, never a string). -/
def numOrAbsent : Option PFloat → Bool
  | none => true
  | some (PFloat.num _) => true
  | some _ => false

lemma numOrAbsent_of_finOrNan {x : PFloat} (h : finOrNan x) :
    numOrAbsent (if x.isna then none else some (round4 x)) = true := by
  rcases h with rfl | ⟨q, rfl⟩
  · simp [numOrAbsent]
  · simp [numOrAbsent, round4]

/-- C7: in every output record of every run, each of the three score cells
is the explicit absent marker or a finite number rounded to 4 decimal
places — NaN never reaches the output (the NaN check precedes the cell
write) and a missing score is never replaced by zero. -/
theorem C7_output_scores_finite (demo : List DemoRow) (migration : List MigRow)
    (system : List SysRow) :
    ∀ s ∈ finalScores demo migration system,
      numOrAbsent s.statistical_health_score = true
      ∧ numOrAbsent s.migration_pressure_index = true
      ∧ numOrAbsent s.abuse_of_process_score = true := by
  intro s hs
  obtain ⟨r, hr, rfl⟩ := List.mem_map.mp hs
  exact ⟨numOrAbsent_of_finOrNan (SHS_finOrNan _ r),
    numOrAbsent_of_finOrNan (MPI_finOrNan _ r),
    numOrAbsent_of_finOrNan (APS_finOrNan _ r)⟩

/-- C7 witness: the single output record of the run on the one-row tables. -/
theorem C7_output_scores_finite_witness :
    numOrAbsent (scoreRow (mergeTables [demoHalf] [] [])
        ⟨demoHalf, none, none⟩).statistical_health_score = true
    ∧ numOrAbsent (scoreRow (mergeTables [demoHalf] [] [])
        ⟨demoHalf, none, none⟩).migration_pressure_index = true
    ∧ numOrAbsent (scoreRow (mergeTables [demoHalf] [] [])
        ⟨demoHalf, none, none⟩).abuse_of_process_score = true :=
  C7_output_scores_finite [demoHalf] [] []
    (scoreRow (mergeTables [demoHalf] [] []) ⟨demoHalf, none, none⟩)
    (by simp [finalScores, results, mergeTables])
